import Mathlib

/-!
Verification of the `AudioSyncEngine` timing core (`src/scripts/audio-sync.js`)
of the synchronized-lyrics viewer.

The engine is embedded shallowly:
* `flattenCharacters` mirrors `AudioSyncEngine.flattenCharacters`: it flattens
  `songData.verses[*].characters[*]` into `TextUnit`s carrying `verseIdx`,
  `charIdx` and `globalIdx` (the running position at push time), then sorts by
  `time`.  `Array.prototype.sort` with comparator `a.time - b.time` is a stable
  sort on the `time` key (ECMAScript guarantees sort stability), embedded here
  as the stable `List.insertionSort` on `timeLE`.
* `update`, `seekTo`, `startSync`, `stopSync`, `reset` mirror the methods of the
  same names.  Stateful methods become functions `EngineState → EngineState × List Event`;
  the events list records the `emit` calls in order.  The playback clock
  (`audio.currentTime`) and the duration fallback chain
  (`audio.duration || state.duration || 0`) are external inputs, passed as the
  parameters `t` and `d`.  `requestAnimationFrame` re-arming and `console.log`
  calls have no observable effect on engine state or notifications and are not
  modelled.
* the handler registry (`handlers` object of three JS `Set`s, and `on` / `off` /
  `emit`) is embedded as `Handlers`, with callbacks identified by opaque `Nat`
  ids; a JS `Set` keeps insertion order and ignores re-insertion, embedded as a
  duplicate-free list with `setAdd` / `List.erase`.  The guard
  `if (this.handlers[event])` is a JS property lookup on an object literal and
  falls through to `Object.prototype`, so `on` / `off` / `emit` are fallible
  (`Except JsError`): the three own-property names reach their Set,
  prototype-inherited names (`"constructor"`, `"toString"`, `"__proto__"`, ...)
  make the guard truthy and the subsequent Set method call on a non-Set throws
  a `TypeError`, and every other name is a silent no-op.

Times are JS numbers used only in comparisons (`<=`, `>=`) and in the sort
comparator's sign, so they are embedded as `Int`.
-/

namespace AudioSync

/-- One entry of `verse.characters` in the song data: a glyph (opaque id) with
its display time. Optional annotation fields (`pinyin`, `meaning`) are never
read by the engine and are omitted. -/
structure CharData where
  char : Nat
  time : Int
deriving DecidableEq

/-- A verse of the song data: its `characters` array. The `translation` string
is never read by the engine. -/
structure Verse where
  characters : List CharData
deriving DecidableEq

/-- The song data handed to the engine constructor: its `verses` array. -/
structure SongData where
  verses : List Verse
deriving DecidableEq

/-- A flattened character produced by `flattenCharacters`: the spread of the
source char data plus `verseIdx`, `charIdx` and `globalIdx`. -/
structure TextUnit where
  char : Nat
  time : Int
  verseIdx : Nat
  charIdx : Nat
  globalIdx : Nat
deriving DecidableEq

instance : Inhabited TextUnit := ⟨⟨0, 0, 0, 0, 0⟩⟩

/-- The comparison key of `chars.sort((a, b) => a.time - b.time)`. -/
def timeLE (a b : TextUnit) : Prop := a.time ≤ b.time

instance : DecidableRel timeLE := fun a b => inferInstanceAs (Decidable (a.time ≤ b.time))

instance : IsTotal TextUnit timeLE := ⟨fun a b => Int.le_total a.time b.time⟩

instance : IsTrans TextUnit timeLE := ⟨fun _ _ _ hab hbc => le_trans hab hbc⟩

/-- `timeAtMost t c` is the Boolean test `c.time <= t` used by the scan loops. -/
def timeAtMost (t : Int) (c : TextUnit) : Bool := decide (c.time ≤ t)

/-- The flattening pass of `flattenCharacters` before the sort: one `TextUnit`
per character, in verse order, with `globalIdx = chars.length` at push time. -/
def flattenRaw (songData : SongData) : List TextUnit :=
  (((songData.verses.enum.map fun v =>
      v.2.characters.enum.map fun c => (v.1, c.1, c.2)).flatten).enum.map
    fun p => { char := p.2.2.2.char, time := p.2.2.2.time,
               verseIdx := p.2.1, charIdx := p.2.2.1, globalIdx := p.1 })

/-- `AudioSyncEngine.flattenCharacters`: flatten all verses, then
`chars.sort((a, b) => a.time - b.time)` — a stable sort on `time`. -/
def flattenCharacters (songData : SongData) : List TextUnit :=
  List.insertionSort timeLE (flattenRaw songData)

/-- A call to `this.emit(event, data)`, recorded with its payload. -/
inductive Event where
  | verseChange (verseIdx : Nat) (character : TextUnit)
  | characterChange (character : TextUnit)
  | timeUpdate (currentTime : Int) (duration : Int)
deriving DecidableEq

/-- Recognizer for `character-change` ("unit entered") events. -/
def isCharacterChange : Event → Bool
  | Event.characterChange _ => true
  | _ => false

/-- Recognizer for `verse-change` ("verse entered") events. -/
def isVerseChange : Event → Bool
  | Event.verseChange _ _ => true
  | _ => false

/-- The engine's mutable state: the flattened sequence, the cursor, and the
running flag (`syncLoop` is scheduling plumbing with no observable effect). -/
structure EngineState where
  characters : List TextUnit
  currentIndex : Nat
  isRunning : Bool
deriving DecidableEq

/-- The `while` loop of `AudioSyncEngine.update`, walking the suffix of the
sequence after the cursor.  `prev` is `characters[idx]` (the unit most recently
entered), `rest` is `characters.drop (idx + 1)`; each iteration checks
`currentTime >= nextChar.time`, advances, emits `verse-change` when the
`verseIdx` differs from the previous unit's, then emits `character-change`. -/
def advanceLoop (t : Int) : TextUnit → Nat → List TextUnit → Nat × List Event
  | _, idx, [] => (idx, [])
  | prev, idx, next :: rest =>
    if next.time ≤ t then
      let r := advanceLoop t next (idx + 1) rest
      (r.1, ((if prev.verseIdx ≠ next.verseIdx then
                [Event.verseChange next.verseIdx next] else [])
             ++ [Event.characterChange next]) ++ r.2)
    else (idx, [])

/-- `AudioSyncEngine.update`: bail out when not running; emit `time-update`
with the polled clock `t` and duration `d`; then run the forward scan.  The
cursor is always in bounds for a non-empty sequence, so `getD`'s default is
never reached from the public API. -/
def update (t d : Int) (s : EngineState) : EngineState × List Event :=
  if s.isRunning then
    let r := advanceLoop t (s.characters.getD s.currentIndex default)
      s.currentIndex (s.characters.drop (s.currentIndex + 1))
    ({ s with currentIndex := r.1 }, Event.timeUpdate t d :: r.2)
  else (s, [])

/-- The `for` loop of `AudioSyncEngine.seekTo`: `newIndex` starts at `0`; each
`characters[i]` with `time <= time` overwrites `newIndex` with `i`; the first
one with larger time breaks the loop. -/
def seekScan (time : Int) : List TextUnit → Nat → Nat → Nat
  | [], _, acc => acc
  | c :: rest, i, acc => if c.time ≤ time then seekScan time rest (i + 1) i else acc

/-- The index computed by `AudioSyncEngine.seekTo`'s scan. -/
def seekIndex (chars : List TextUnit) (time : Int) : Nat :=
  seekScan time chars 0 0

/-- `AudioSyncEngine.seekTo`: set the cursor from the linear scan; when
`characters[newIndex]` exists, emit `verse-change` then `character-change` for
it (on an empty sequence the `if (currentChar)` guard skips both emits). -/
def seekTo (time : Int) (s : EngineState) : EngineState × List Event :=
  let newIndex := seekIndex s.characters time
  let s1 : EngineState := { s with currentIndex := newIndex }
  match s1.characters.get? newIndex with
  | some currentChar =>
      (s1, [Event.verseChange currentChar.verseIdx currentChar,
            Event.characterChange currentChar])
  | none => (s1, [])

/-- `AudioSyncEngine.startSync`: a no-op when already running; otherwise set
the running flag, emit the initial `verse-change` and `character-change` for
`characters[currentIndex]` when the sequence is non-empty, then call
`update()` inline with the current clock reading. -/
def startSync (t d : Int) (s : EngineState) : EngineState × List Event :=
  if s.isRunning then (s, [])
  else
    let s1 : EngineState := { s with isRunning := true }
    let initEvs : List Event :=
      if 0 < s1.characters.length then
        let firstChar := s1.characters.getD s1.currentIndex default
        [Event.verseChange firstChar.verseIdx firstChar,
         Event.characterChange firstChar]
      else []
    let r := update t d s1
    (r.1, initEvs ++ r.2)

/-- `AudioSyncEngine.stopSync`: clear the running flag (cancelling the
scheduled frame has no observable effect on state or notifications). -/
def stopSync (s : EngineState) : EngineState :=
  { s with isRunning := false }

/-- `AudioSyncEngine.reset`: cursor back to `0`, then `stopSync`. -/
def reset (s : EngineState) : EngineState :=
  stopSync { s with currentIndex := 0 }

/-- A run of `update` ticks (each a pair of clock reading and duration) with no
intervening seek. -/
def runTicks (ticks : List (Int × Int)) (s : EngineState) : EngineState :=
  ticks.foldl (fun st p => (update p.1 p.2 st).1) s

/-- The events emitted by one maximal run of the `update` loop that enters the
units of `entered` in order, starting from current unit `prev`: per entered
unit, `verse-change` exactly when its `verseIdx` differs from its
predecessor's, immediately followed by its `character-change`. -/
def chainEvents : TextUnit → List TextUnit → List Event
  | _, [] => []
  | prev, next :: rest =>
      ((if prev.verseIdx ≠ next.verseIdx then
          [Event.verseChange next.verseIdx next] else [])
       ++ [Event.characterChange next]) ++ chainEvents next rest

/-- The number of verse boundaries crossed when entering the units of a list in
order, starting from `prev`. -/
def verseTransitions : TextUnit → List TextUnit → Nat
  | _, [] => 0
  | prev, next :: rest =>
      (if prev.verseIdx ≠ next.verseIdx then 1 else 0) + verseTransitions next rest

/-- JS `Set.prototype.add`: append unless already present (insertion order is
kept, re-adding an element does not move it). -/
def setAdd (l : List Nat) (x : Nat) : List Nat :=
  if x ∈ l then l else l ++ [x]

/-- The `handlers` registry: one JS `Set` of callbacks (opaque ids, in
insertion order) per event kind. -/
structure Handlers where
  characterChange : List Nat
  verseChange : List Nat
  timeUpdate : List Nat
deriving DecidableEq

/-- The three event names that key the `handlers` object. -/
def knownEvent (e : String) : Bool :=
  e = "character-change" || e = "verse-change" || e = "time-update"

/-- A JS runtime exception surfaced by the handler registry: calling a `Set`
method (`add`, `delete`, `forEach`) on a non-Set value throws `TypeError`. -/
inductive JsError where
  | typeError
deriving DecidableEq

/-- Event names for which `this.handlers[event]` is truthy WITHOUT being one
of the three own-property Sets: property lookup on the object literal falls
through to `Object.prototype`, whose member values (methods, and the object
returned by the `__proto__` accessor) are all truthy. -/
def protoInherited (e : String) : Bool :=
  e = "constructor" || e = "toString" || e = "toLocaleString" || e = "valueOf" ||
  e = "hasOwnProperty" || e = "isPrototypeOf" || e = "propertyIsEnumerable" ||
  e = "__proto__" || e = "__defineGetter__" || e = "__defineSetter__" ||
  e = "__lookupGetter__" || e = "__lookupSetter__"

/-- `AudioSyncEngine.on`: `if (this.handlers[event])` then
`this.handlers[event].add(callback)`.  The three own-property names reach
their Set; a prototype-inherited name makes the guard truthy and `.add` on the
inherited non-Set value throws a `TypeError`; any other name makes the guard
falsy — a silent no-op. -/
def Handlers.on (h : Handlers) (e : String) (cb : Nat) : Except JsError Handlers :=
  if e = "character-change" then
    Except.ok { h with characterChange := setAdd h.characterChange cb }
  else if e = "verse-change" then
    Except.ok { h with verseChange := setAdd h.verseChange cb }
  else if e = "time-update" then
    Except.ok { h with timeUpdate := setAdd h.timeUpdate cb }
  else if protoInherited e then Except.error JsError.typeError
  else Except.ok h

/-- `AudioSyncEngine.off`: same guard as `on`, then
`this.handlers[event].delete(callback)` — which throws `TypeError` on a
prototype-inherited non-Set value. -/
def Handlers.off (h : Handlers) (e : String) (cb : Nat) : Except JsError Handlers :=
  if e = "character-change" then
    Except.ok { h with characterChange := h.characterChange.erase cb }
  else if e = "verse-change" then
    Except.ok { h with verseChange := h.verseChange.erase cb }
  else if e = "time-update" then
    Except.ok { h with timeUpdate := h.timeUpdate.erase cb }
  else if protoInherited e then Except.error JsError.typeError
  else Except.ok h

/-- `AudioSyncEngine.emit`: same guard, then `.forEach(callback => ...)`; the
result is the list of callbacks invoked, in registration order.  `forEach` on
a prototype-inherited non-Set value throws `TypeError`; any other unknown name
invokes nothing. -/
def Handlers.emit (h : Handlers) (e : String) : Except JsError (List Nat) :=
  if e = "character-change" then Except.ok h.characterChange
  else if e = "verse-change" then Except.ok h.verseChange
  else if e = "time-update" then Except.ok h.timeUpdate
  else if protoInherited e then Except.error JsError.typeError
  else Except.ok []

/-- Representation invariant of the registry: JS `Set`s hold no duplicates. -/
def Handlers.WF (h : Handlers) : Prop :=
  h.characterChange.Nodup ∧ h.verseChange.Nodup ∧ h.timeUpdate.Nodup

instance (h : Handlers) : Decidable h.WF := by
  unfold Handlers.WF; infer_instance

/-! ### Library-style helper lemmas about `takeWhile`, `getD` and `drop` -/

theorem takeWhile_length_le {α : Type} (p : α → Bool) (l : List α) :
    (l.takeWhile p).length ≤ l.length :=
  (List.takeWhile_prefix p).length_le

theorem takeWhile_getD {α : Type} [Inhabited α] (p : α → Bool) :
    ∀ (l : List α) (j : Nat), j < (l.takeWhile p).length → p (l.getD j default) = true := by
  intro l
  induction l with
  | nil => intro j h; simp [List.takeWhile] at h
  | cons a l ih =>
    intro j h
    cases hpa : p a with
    | false => rw [List.takeWhile_cons, if_neg (by simp [hpa])] at h; simp at h
    | true =>
      rw [List.takeWhile_cons, if_pos (by simp [hpa])] at h
      cases j with
      | zero => simpa using hpa
      | succ j =>
        simp only [List.length_cons, Nat.succ_lt_succ_iff] at h
        simpa using ih j h

theorem takeWhile_stop {α : Type} [Inhabited α] (p : α → Bool) :
    ∀ (l : List α), (l.takeWhile p).length < l.length →
      p (l.getD (l.takeWhile p).length default) = false := by
  intro l
  induction l with
  | nil => intro h; simp at h
  | cons a l ih =>
    intro h
    cases hpa : p a with
    | false => rw [List.takeWhile_cons, if_neg (by simp [hpa])]; simpa using hpa
    | true =>
      rw [List.takeWhile_cons, if_pos (by simp [hpa])] at h ⊢
      simp only [List.length_cons, Nat.succ_lt_succ_iff] at h
      simpa using ih h

theorem takeWhile_eq_take {α : Type} (p : α → Bool) :
    ∀ l : List α, l.takeWhile p = l.take (l.takeWhile p).length := by
  intro l
  induction l with
  | nil => simp
  | cons a l ih =>
    cases hpa : p a with
    | false => rw [List.takeWhile_cons, if_neg (by simp [hpa])]; simp
    | true =>
      rw [List.takeWhile_cons, if_pos (by simp [hpa])]
      simpa using ih

theorem getD_drop {α : Type} [Inhabited α] (l : List α) (n m : Nat) :
    (l.drop n).getD m default = l.getD (n + m) default := by
  simp [List.getD_eq_getD_get?, List.get?_eq_getElem?, List.getElem?_drop]

/-! ### Characterizations of the two scan loops -/

/-- The `update` while-loop advances over exactly the maximal prefix of the
suffix after the cursor whose times are `<= t`, and emits the corresponding
event chain. -/
theorem advanceLoop_eq (t : Int) :
    ∀ (rest : List TextUnit) (prev : TextUnit) (idx : Nat),
      advanceLoop t prev idx rest
        = (idx + (rest.takeWhile (timeAtMost t)).length,
           chainEvents prev (rest.takeWhile (timeAtMost t))) := by
  intro rest
  induction rest with
  | nil => intro prev idx; simp [advanceLoop, chainEvents]
  | cons next rest ih =>
    intro prev idx
    by_cases hq : next.time ≤ t
    · have hb : timeAtMost t next = true := by simp [timeAtMost, hq]
      have htw : (next :: rest).takeWhile (timeAtMost t)
          = next :: rest.takeWhile (timeAtMost t) := by
        simp [List.takeWhile_cons, hb]
      rw [htw]
      simp only [advanceLoop, if_pos hq, ih, chainEvents, List.length_cons, Prod.mk.injEq]
      exact ⟨by omega, by simp⟩
    · have hb : timeAtMost t next = false := by simp [timeAtMost, hq]
      have htw : (next :: rest).takeWhile (timeAtMost t) = [] := by
        simp [List.takeWhile_cons, hb]
      rw [htw]
      simp [advanceLoop, if_neg hq, chainEvents]

/-- The `seekTo` for-loop lands on the last index of the maximal prefix with
time `<= t` (or on the default `0` when that prefix is empty). -/
theorem seekScan_eq (t : Int) :
    ∀ (l : List TextUnit) (i acc : Nat),
      seekScan t l i acc =
        if (l.takeWhile (timeAtMost t)).length = 0 then acc
        else i + (l.takeWhile (timeAtMost t)).length - 1 := by
  intro l
  induction l with
  | nil => intro i acc; simp [seekScan]
  | cons c rest ih =>
    intro i acc
    by_cases hc : c.time ≤ t
    · have hb : timeAtMost t c = true := by simp [timeAtMost, hc]
      have htw : (c :: rest).takeWhile (timeAtMost t)
          = c :: rest.takeWhile (timeAtMost t) := by
        simp [List.takeWhile_cons, hb]
      rw [htw]
      simp only [seekScan, if_pos hc, ih, List.length_cons]
      by_cases h0 : (rest.takeWhile (timeAtMost t)).length = 0
      · simp [h0]
      · rw [if_neg h0, if_neg (by omega)]
        omega
    · have hb : timeAtMost t c = false := by simp [timeAtMost, hc]
      have htw : (c :: rest).takeWhile (timeAtMost t) = [] := by
        simp [List.takeWhile_cons, hb]
      rw [htw]
      simp [seekScan, if_neg hc]

theorem seekIndex_eq (chars : List TextUnit) (t : Int) :
    seekIndex chars t =
      if (chars.takeWhile (timeAtMost t)).length = 0 then 0
      else (chars.takeWhile (timeAtMost t)).length - 1 := by
  simp [seekIndex, seekScan_eq]

/-- `update` on a running engine, in closed form. -/
theorem update_eq_of_running (t d : Int) (s : EngineState) (h : s.isRunning = true) :
    update t d s
      = ({ s with currentIndex := s.currentIndex
            + ((s.characters.drop (s.currentIndex + 1)).takeWhile (timeAtMost t)).length },
         Event.timeUpdate t d
           :: chainEvents (s.characters.getD s.currentIndex default)
                ((s.characters.drop (s.currentIndex + 1)).takeWhile (timeAtMost t))) := by
  simp [update, h, advanceLoop_eq]

theorem update_eq_of_stopped (t d : Int) (s : EngineState) (h : s.isRunning = false) :
    update t d s = (s, []) := by
  simp [update, h]

/-- The `character-change` events of one loop run are exactly the entered
units, in order. -/
theorem chainEvents_filter_cc :
    ∀ (l : List TextUnit) (prev : TextUnit),
      (chainEvents prev l).filter isCharacterChange = l.map Event.characterChange := by
  intro l
  induction l with
  | nil => intro prev; simp [chainEvents]
  | cons next rest ih =>
    intro prev
    by_cases hv : prev.verseIdx ≠ next.verseIdx <;>
      simp [chainEvents, hv, isCharacterChange, ih]

/-- The number of `verse-change` events of one loop run is the number of verse
boundaries crossed. -/
theorem chainEvents_countP_vc :
    ∀ (l : List TextUnit) (prev : TextUnit),
      (chainEvents prev l).countP isVerseChange = verseTransitions prev l := by
  intro l
  induction l with
  | nil => intro prev; simp [chainEvents, verseTransitions]
  | cons next rest ih =>
    intro prev
    by_cases hv : prev.verseIdx ≠ next.verseIdx
    · simp [chainEvents, verseTransitions, hv, isVerseChange, ih, List.countP_cons,
        List.countP_append]
      omega
    · simp [chainEvents, verseTransitions, hv, isVerseChange, ih, List.countP_cons,
        List.countP_append]

/-! ### Facts about the seek scan -/

theorem seekIndex_lt (chars : List TextUnit) (t : Int) (hne : chars ≠ []) :
    seekIndex chars t < chars.length := by
  rw [seekIndex_eq]
  have h1 := takeWhile_length_le (timeAtMost t) chars
  have h2 : 0 < chars.length := List.length_pos.mpr hne
  by_cases h0 : (chars.takeWhile (timeAtMost t)).length = 0
  · simpa [h0] using h2
  · rw [if_neg h0]; omega

theorem takeWhile_pos_of_head (chars : List TextUnit) (t : Int) (hne : chars ≠ [])
    (hhead : (chars.getD 0 default).time ≤ t) :
    0 < (chars.takeWhile (timeAtMost t)).length := by
  cases chars with
  | nil => simp at hne
  | cons c rest =>
    have hc : timeAtMost t c = true := by simpa [timeAtMost] using hhead
    simp [List.takeWhile_cons, hc]

theorem seekIndex_time_le (chars : List TextUnit) (t : Int) (hne : chars ≠ [])
    (hhead : (chars.getD 0 default).time ≤ t) :
    (chars.getD (seekIndex chars t) default).time ≤ t := by
  have htl := takeWhile_pos_of_head chars t hne hhead
  rw [seekIndex_eq, if_neg (by omega)]
  have h := takeWhile_getD (timeAtMost t) chars
    ((chars.takeWhile (timeAtMost t)).length - 1) (by omega)
  simpa [timeAtMost] using h

theorem seekTo_fst (t : Int) (s : EngineState) :
    (seekTo t s).1 = { s with currentIndex := seekIndex s.characters t } := by
  unfold seekTo
  cases h : s.characters[seekIndex s.characters t]? <;>
    simp [List.get?_eq_getElem?, h]

theorem seekTo_snd (t : Int) (s : EngineState) (hne : s.characters ≠ []) :
    (seekTo t s).2
      = [Event.verseChange (s.characters.getD (seekIndex s.characters t) default).verseIdx
           (s.characters.getD (seekIndex s.characters t) default),
         Event.characterChange (s.characters.getD (seekIndex s.characters t) default)] := by
  have hlt := seekIndex_lt s.characters t hne
  rw [List.getD_eq_getElem _ _ hlt]
  have hsome : s.characters[seekIndex s.characters t]?
      = some (s.characters[seekIndex s.characters t]) :=
    List.getElem?_eq_getElem hlt
  simp [seekTo, List.get?_eq_getElem?, hsome]

/-! ### Claim theorems about construction (`flattenCharacters`) -/

/-- C5: for every input song data, the flattened sequence built by
`flattenCharacters` is non-decreasing in `time` at every adjacent pair —
including when the input verses' characters are not in global time order,
because the constructor ends with `chars.sort((a, b) => a.time - b.time)`. -/
theorem flattenCharacters_time_mono (sd : SongData) (i : Nat)
    (h : i + 1 < (flattenCharacters sd).length) :
    ((flattenCharacters sd).getD i default).time
      ≤ ((flattenCharacters sd).getD (i + 1) default).time := by
  have hs : (flattenCharacters sd).Pairwise timeLE :=
    List.sorted_insertionSort timeLE (flattenRaw sd)
  have h1 : i < (flattenCharacters sd).length := by omega
  rw [List.getD_eq_getElem _ _ h1, List.getD_eq_getElem _ _ h]
  exact List.pairwise_iff_getElem.mp hs i (i + 1) h1 h (by omega)

/-- A concrete two-verse song whose characters are already in time order. -/
def exSong : SongData :=
  { verses := [⟨[⟨10, 0⟩, ⟨11, 2⟩]⟩, ⟨[⟨12, 5⟩]⟩] }

/-- Witness for C5 at the concrete song `exSong` and `i = 0`. -/
theorem flattenCharacters_time_mono_witness :
    0 + 1 < (flattenCharacters exSong).length ∧
      ((flattenCharacters exSong).getD 0 default).time
        ≤ ((flattenCharacters exSong).getD (0 + 1) default).time :=
  ⟨by decide, flattenCharacters_time_mono exSong 0 (by decide)⟩

/-- A one-verse song whose two characters are NOT in time order
(times `5` then `1`). -/
def outOfOrderSong : SongData :=
  { verses := [⟨[⟨10, 5⟩, ⟨11, 1⟩]⟩] }

/-- C4 counterexample: `globalIdx` is assigned at push time, BEFORE the time
sort, so on `outOfOrderSong` the sort permutes the two units and the unit at
sorted position `0` carries `globalIdx = 1`.  The claim "for all inputs,
`sequence[i].globalIdx == i`" is therefore false. -/
theorem globalIdx_not_position :
    ¬ (∀ (sd : SongData) (i : Nat), i < (flattenCharacters sd).length →
        ((flattenCharacters sd).getD i default).globalIdx = i) := by
  intro hall
  have h := hall outOfOrderSong 0 (by decide)
  exact absurd h (by decide)

/-- C4 amended: when the flattening (verse order) is already non-decreasing in
time, the stable sort keeps it unchanged and each unit's `globalIdx` equals its
position in the sorted sequence. -/
theorem globalIdx_position_of_sorted (sd : SongData)
    (hs : (flattenRaw sd).Pairwise timeLE) (i : Nat)
    (h : i < (flattenCharacters sd).length) :
    ((flattenCharacters sd).getD i default).globalIdx = i := by
  have heq : flattenCharacters sd = flattenRaw sd :=
    List.Sorted.insertionSort_eq hs
  rw [heq] at h ⊢
  rw [List.getD_eq_getElem _ _ h]
  unfold flattenRaw at h ⊢
  simp [List.getElem_map, List.getElem_enum]

/-- Witness for the amended C4 at the in-time-order song `exSong`, `i = 0`. -/
theorem globalIdx_position_of_sorted_witness :
    (flattenRaw exSong).Pairwise timeLE ∧ 0 < (flattenCharacters exSong).length ∧
      ((flattenCharacters exSong).getD 0 default).globalIdx = 0 :=
  ⟨by decide, by decide, globalIdx_position_of_sorted exSong (by decide) 0 (by decide)⟩

/-! ### Claim theorem for seeking (C1) -/

/-- C1: on a non-empty time-sorted sequence, `seekTo t` sets the cursor to the
highest index whose time is `<= t`: the cursor is in bounds; if `t` precedes
the first unit's time the cursor is `0`; otherwise the cursor's unit time is
`<= t` and either the cursor is the last index or the next unit's time exceeds
`t`; and every index whose unit time is `<= t` is `<=` the cursor. -/
theorem seekTo_cursor_correct (s : EngineState) (t : Int)
    (hsorted : s.characters.Pairwise timeLE) (hne : s.characters ≠ []) :
    (seekTo t s).1.currentIndex < s.characters.length ∧
    (t < (s.characters.getD 0 default).time → (seekTo t s).1.currentIndex = 0) ∧
    ((s.characters.getD 0 default).time ≤ t →
      (s.characters.getD (seekTo t s).1.currentIndex default).time ≤ t ∧
      ((seekTo t s).1.currentIndex = s.characters.length - 1 ∨
        ((seekTo t s).1.currentIndex + 1 < s.characters.length ∧
          t < (s.characters.getD ((seekTo t s).1.currentIndex + 1) default).time))) ∧
    (∀ j, j < s.characters.length → (s.characters.getD j default).time ≤ t →
      j ≤ (seekTo t s).1.currentIndex) := by
  have hfst : (seekTo t s).1.currentIndex = seekIndex s.characters t := by
    rw [seekTo_fst]
  rw [hfst]
  have hlt : seekIndex s.characters t < s.characters.length :=
    seekIndex_lt s.characters t hne
  have hlen0 : 0 < s.characters.length := List.length_pos.mpr hne
  have htlle := takeWhile_length_le (timeAtMost t) s.characters
  refine ⟨hlt, ?_, ?_, ?_⟩
  · intro hbefore
    have h0 : (s.characters.takeWhile (timeAtMost t)).length = 0 := by
      by_contra h0
      have h := takeWhile_getD (timeAtMost t) s.characters 0 (by omega)
      simp only [timeAtMost, decide_eq_true_eq] at h
      omega
    rw [seekIndex_eq, if_pos h0]
  · intro hhead
    have htl := takeWhile_pos_of_head s.characters t hne hhead
    refine ⟨seekIndex_time_le s.characters t hne hhead, ?_⟩
    by_cases hend : (s.characters.takeWhile (timeAtMost t)).length = s.characters.length
    · left
      rw [seekIndex_eq, if_neg (by omega), hend]
    · right
      have hstop := takeWhile_stop (timeAtMost t) s.characters (by omega)
      simp only [timeAtMost, decide_eq_false_iff_not, not_le] at hstop
      rw [seekIndex_eq, if_neg (by omega)]
      have harith : (s.characters.takeWhile (timeAtMost t)).length - 1 + 1
          = (s.characters.takeWhile (timeAtMost t)).length := by omega
      rw [harith]
      exact ⟨by omega, hstop⟩
  · intro j hj hqj
    by_contra hgt
    push_neg at hgt
    have hjtl : (s.characters.takeWhile (timeAtMost t)).length ≤ j := by
      rw [seekIndex_eq] at hgt
      by_cases h0 : (s.characters.takeWhile (timeAtMost t)).length = 0
      · omega
      · rw [if_neg h0] at hgt; omega
    have htllt : (s.characters.takeWhile (timeAtMost t)).length < s.characters.length := by
      omega
    have hstop := takeWhile_stop (timeAtMost t) s.characters htllt
    simp only [timeAtMost, decide_eq_false_iff_not, not_le] at hstop
    by_cases hjeq : j = (s.characters.takeWhile (timeAtMost t)).length
    · rw [← hjeq] at hstop; omega
    · have hrel := List.pairwise_iff_getElem.mp hsorted
        (s.characters.takeWhile (timeAtMost t)).length j htllt hj (by omega)
      unfold timeLE at hrel
      rw [List.getD_eq_getElem _ _ htllt] at hstop
      rw [List.getD_eq_getElem _ _ hj] at hqj
      omega

/-- A concrete non-empty, time-sorted engine state (three units, two verses). -/
def exState : EngineState :=
  { characters := [⟨10, 0, 0, 0, 0⟩, ⟨11, 2, 0, 1, 1⟩, ⟨12, 5, 1, 0, 2⟩],
    currentIndex := 0, isRunning := false }

/-- Witness for C1 at `exState` with target time `4` (its first conjunct:
the resulting cursor is in bounds). -/
theorem seekTo_cursor_correct_witness :
    exState.characters.Pairwise timeLE ∧ exState.characters ≠ [] ∧
      (seekTo 4 exState).1.currentIndex < exState.characters.length :=
  ⟨by decide, by decide, (seekTo_cursor_correct exState 4 (by decide) (by decide)).1⟩

/-! ### Facts about the update tick -/

theorem update_index_mono (t d : Int) (s : EngineState) :
    s.currentIndex ≤ (update t d s).1.currentIndex := by
  by_cases hr : s.isRunning = true
  · rw [update_eq_of_running t d s hr]
    exact Nat.le_add_right _ _
  · rw [update_eq_of_stopped t d s (by simpa using hr)]

theorem update_index_lt (t d : Int) (s : EngineState)
    (h : s.currentIndex < s.characters.length) :
    (update t d s).1.currentIndex < s.characters.length := by
  by_cases hr : s.isRunning = true
  · rw [update_eq_of_running t d s hr]
    have hk := takeWhile_length_le (timeAtMost t) (s.characters.drop (s.currentIndex + 1))
    rw [List.length_drop] at hk
    show s.currentIndex + _ < s.characters.length
    omega
  · rw [update_eq_of_stopped t d s (by simpa using hr)]
    exact h

/-- Every unit strictly between the old and new cursor (inclusive) that the
tick entered has time `<= t`. -/
theorem update_entered_time_le (s : EngineState) (t d : Int)
    (hrun : s.isRunning = true) (j : Nat) (hj1 : s.currentIndex < j)
    (hj2 : j ≤ (update t d s).1.currentIndex) :
    (s.characters.getD j default).time ≤ t := by
  rw [update_eq_of_running t d s hrun] at hj2
  dsimp only at hj2
  have hm : j - (s.currentIndex + 1)
      < ((s.characters.drop (s.currentIndex + 1)).takeWhile (timeAtMost t)).length := by
    omega
  have h := takeWhile_getD (timeAtMost t) (s.characters.drop (s.currentIndex + 1))
    (j - (s.currentIndex + 1)) hm
  rw [getD_drop] at h
  have hjj : s.currentIndex + 1 + (j - (s.currentIndex + 1)) = j := by omega
  rw [hjj] at h
  simpa [timeAtMost] using h

/-- The tick stops exactly at the first later unit whose time exceeds `t`. -/
theorem update_stop_time (s : EngineState) (t d : Int)
    (hrun : s.isRunning = true)
    (hlt2 : (update t d s).1.currentIndex + 1 < s.characters.length) :
    t < (s.characters.getD ((update t d s).1.currentIndex + 1) default).time := by
  rw [update_eq_of_running t d s hrun] at hlt2 ⊢
  dsimp only at hlt2 ⊢
  have hdr : (s.characters.drop (s.currentIndex + 1)).length
      = s.characters.length - (s.currentIndex + 1) := List.length_drop ..
  have hklt : ((s.characters.drop (s.currentIndex + 1)).takeWhile (timeAtMost t)).length
      < (s.characters.drop (s.currentIndex + 1)).length := by omega
  have h := takeWhile_stop (timeAtMost t) (s.characters.drop (s.currentIndex + 1)) hklt
  rw [getD_drop] at h
  have hjj : s.currentIndex + 1
        + ((s.characters.drop (s.currentIndex + 1)).takeWhile (timeAtMost t)).length
      = s.currentIndex
        + ((s.characters.drop (s.currentIndex + 1)).takeWhile (timeAtMost t)).length + 1 := by
    omega
  rw [hjj] at h
  simp only [timeAtMost, decide_eq_false_iff_not, not_le] at h
  exact h

/-- The `character-change` events of a running tick are exactly the entered
units, in order. -/
theorem update_cc_events (s : EngineState) (t d : Int) (hrun : s.isRunning = true) :
    (update t d s).2.filter isCharacterChange
      = ((s.characters.drop (s.currentIndex + 1)).take
            ((update t d s).1.currentIndex - s.currentIndex)).map Event.characterChange := by
  rw [update_eq_of_running t d s hrun]
  dsimp only
  have harith : s.currentIndex
        + ((s.characters.drop (s.currentIndex + 1)).takeWhile (timeAtMost t)).length
        - s.currentIndex
      = ((s.characters.drop (s.currentIndex + 1)).takeWhile (timeAtMost t)).length := by
    omega
  rw [harith, ← takeWhile_eq_take]
  simp [isCharacterChange, chainEvents_filter_cc]

theorem update_fst_characters (t d : Int) (s : EngineState) :
    (update t d s).1.characters = s.characters := by
  by_cases hr : s.isRunning = true
  · rw [update_eq_of_running t d s hr]
  · rw [update_eq_of_stopped t d s (by simpa using hr)]

theorem update_fst_isRunning (t d : Int) (s : EngineState) :
    (update t d s).1.isRunning = s.isRunning := by
  by_cases hr : s.isRunning = true
  · rw [update_eq_of_running t d s hr]
  · rw [update_eq_of_stopped t d s (by simpa using hr)]

/-! ### Claim theorems about the update tick (C2, C3, C6) -/

/-- C2: on a running engine with a non-empty sequence and the cursor in
bounds, one `update t` call advances the cursor by exactly the forward-scan
rule: the cursor never moves back, stays in bounds, every newly entered unit
has time `<= t`, the scan stops as soon as the next unit's time exceeds `t`,
one `character-change` fires per entered unit in order, and nothing else about
the engine state changes. -/
theorem update_forward_scan (s : EngineState) (t d : Int)
    (hrun : s.isRunning = true) (hidx : s.currentIndex < s.characters.length) :
    s.currentIndex ≤ (update t d s).1.currentIndex ∧
    (update t d s).1.currentIndex < s.characters.length ∧
    (∀ j, s.currentIndex < j → j ≤ (update t d s).1.currentIndex →
      (s.characters.getD j default).time ≤ t) ∧
    ((update t d s).1.currentIndex + 1 < s.characters.length →
      t < (s.characters.getD ((update t d s).1.currentIndex + 1) default).time) ∧
    (update t d s).2.filter isCharacterChange
      = ((s.characters.drop (s.currentIndex + 1)).take
            ((update t d s).1.currentIndex - s.currentIndex)).map Event.characterChange ∧
    (update t d s).1.characters = s.characters ∧
    (update t d s).1.isRunning = true :=
  ⟨update_index_mono t d s, update_index_lt t d s hidx,
   fun j hj1 hj2 => update_entered_time_le s t d hrun j hj1 hj2,
   fun h2 => update_stop_time s t d hrun h2,
   update_cc_events s t d hrun,
   update_fst_characters t d s,
   (update_fst_isRunning t d s).trans hrun⟩

/-- A concrete running engine state on the sequence of `exState`. -/
def exRun : EngineState :=
  { characters := [⟨10, 0, 0, 0, 0⟩, ⟨11, 2, 0, 1, 1⟩, ⟨12, 5, 1, 0, 2⟩],
    currentIndex := 0, isRunning := true }

/-- Witness for C2 at `exRun` with playback time `3` (first conjunct: the
cursor does not move backward). -/
theorem update_forward_scan_witness :
    exRun.isRunning = true ∧ exRun.currentIndex < exRun.characters.length ∧
      exRun.currentIndex ≤ (update 3 9 exRun).1.currentIndex :=
  ⟨by decide, by decide, (update_forward_scan exRun 3 9 (by decide) (by decide)).1⟩

/-- C3: across any run of `update` ticks with no intervening seek — whatever
the tick times, including regressing ones — the cursor index never decreases;
backward movement is only possible through `seekTo`. -/
theorem cursor_forward_only (ticks : List (Int × Int)) (s : EngineState) :
    s.currentIndex ≤ (runTicks ticks s).currentIndex := by
  induction ticks generalizing s with
  | nil => simp [runTicks]
  | cons p ticks ih =>
    have h1 := update_index_mono p.1 p.2 s
    have h2 := ih (update p.1 p.2 s).1
    simp only [runTicks, List.foldl_cons] at h2 ⊢
    omega

/-- C6: during forward ticking, `verse-change` fires exactly once per verse
transition among the entered units (the full event equation shows each one
immediately precedes the `character-change` of the unit that triggered it, by
the shape of `chainEvents`), and a `seekTo` emits exactly one `verse-change`,
unconditionally, strictly before its single `character-change`. -/
theorem verse_notifications (s : EngineState) (t d : Int)
    (hrun : s.isRunning = true) (hne : s.characters ≠ []) :
    (update t d s).2
      = Event.timeUpdate t d
        :: chainEvents (s.characters.getD s.currentIndex default)
            ((s.characters.drop (s.currentIndex + 1)).takeWhile (timeAtMost t)) ∧
    (update t d s).2.countP isVerseChange
      = verseTransitions (s.characters.getD s.currentIndex default)
          ((s.characters.drop (s.currentIndex + 1)).takeWhile (timeAtMost t)) ∧
    (seekTo t s).2
      = [Event.verseChange (s.characters.getD (seekIndex s.characters t) default).verseIdx
            (s.characters.getD (seekIndex s.characters t) default),
        Event.characterChange (s.characters.getD (seekIndex s.characters t) default)] := by
  refine ⟨?_, ?_, seekTo_snd t s hne⟩
  · rw [update_eq_of_running t d s hrun]
  · rw [update_eq_of_running t d s hrun]
    simp [List.countP_cons, isVerseChange, chainEvents_countP_vc]

/-- Witness for C6 at `exRun` with playback time `6` (second conjunct: the
`verse-change` count equals the verse-transition count). -/
theorem verse_notifications_witness :
    exRun.isRunning = true ∧ exRun.characters ≠ [] ∧
      (update 6 9 exRun).2.countP isVerseChange
        = verseTransitions (exRun.characters.getD exRun.currentIndex default)
            ((exRun.characters.drop (exRun.currentIndex + 1)).takeWhile (timeAtMost 6)) :=
  ⟨by decide, by decide, (verse_notifications exRun 6 9 (by decide) (by decide)).2.1⟩

/-! ### Facts about `startSync` -/

theorem startSync_fst (t d : Int) (s : EngineState) :
    (startSync t d s).1
      = if s.isRunning then s else (update t d { s with isRunning := true }).1 := by
  by_cases hr : s.isRunning <;> simp [startSync, hr]

theorem startSync_eq_of_stopped (t d : Int) (s : EngineState)
    (hr : s.isRunning = false) (hne : 0 < s.characters.length) :
    startSync t d s
      = ((update t d { s with isRunning := true }).1,
         Event.verseChange (s.characters.getD s.currentIndex default).verseIdx
             (s.characters.getD s.currentIndex default)
           :: Event.characterChange (s.characters.getD s.currentIndex default)
           :: (update t d { s with isRunning := true }).2) := by
  simp [startSync, hr, hne]

/-! ### Claim theorem for the cursor invariants (C9) -/

/-- C9: with the cursor in bounds on a non-empty sequence, every operation
(`startSync`, `update`, `seekTo`, `reset`) keeps it in bounds; after a cursor
advance during `update t` the cursor unit's time is `<= t`; and after
`seekTo t` with `t` at or after the first unit's time the cursor unit's time
is `<= t`. -/
theorem cursor_invariants (s : EngineState) (t d : Int)
    (hidx : s.currentIndex < s.characters.length) :
    (startSync t d s).1.currentIndex < s.characters.length ∧
    (update t d s).1.currentIndex < s.characters.length ∧
    (seekTo t s).1.currentIndex < s.characters.length ∧
    (reset s).currentIndex < s.characters.length ∧
    (s.isRunning = true → s.currentIndex < (update t d s).1.currentIndex →
      (s.characters.getD (update t d s).1.currentIndex default).time ≤ t) ∧
    ((s.characters.getD 0 default).time ≤ t →
      (s.characters.getD (seekTo t s).1.currentIndex default).time ≤ t) := by
  have hne : s.characters ≠ [] := by
    intro h
    rw [h] at hidx
    simp at hidx
  refine ⟨?_, update_index_lt t d s hidx, ?_, ?_, ?_, ?_⟩
  · rw [startSync_fst]
    by_cases hr : s.isRunning <;> simp [hr]
    · exact hidx
    · exact update_index_lt t d { s with isRunning := true } hidx
  · rw [seekTo_fst]
    exact seekIndex_lt s.characters t hne
  · simp [reset, stopSync]
    omega
  · intro hrun hadv
    exact update_entered_time_le s t d hrun _ hadv (Nat.le_refl _)
  · intro hhead
    rw [seekTo_fst]
    exact seekIndex_time_le s.characters t hne hhead

/-- Witness for C9 at `exRun` with seek/tick time `4` (third conjunct: the
cursor stays in bounds after `seekTo`). -/
theorem cursor_invariants_witness :
    exRun.currentIndex < exRun.characters.length ∧
      (seekTo 4 exRun).1.currentIndex < exRun.characters.length :=
  ⟨by decide, (cursor_invariants exRun 4 7 (by decide)).2.2.1⟩

/-! ### Claim theorems for `startSync` (C7) -/

/-- A stopped engine whose two units both have time `0`: `startSync` at
playback time `0` enters the second unit during its inline `update` call. -/
def twoAtZero : EngineState :=
  { characters := [⟨10, 0, 0, 0, 0⟩, ⟨11, 0, 0, 1, 1⟩],
    currentIndex := 0, isRunning := false }

/-- C7 counterexample: `startSync` on a stopped engine with a non-empty
sequence does NOT always emit exactly one `character-change` before any clock
tick — its inline `update()` call can advance further.  At `twoAtZero` with
playback time `0`, two `character-change` notifications fire. -/
theorem startSync_double_emit :
    twoAtZero.isRunning = false ∧ twoAtZero.characters ≠ [] ∧
      (startSync 0 0 twoAtZero).2.countP isCharacterChange = 2 := by
  refine ⟨rfl, by decide, by decide⟩

/-- C7 amended: `startSync` while running is a no-op that emits nothing;
`startSync` on a stopped engine (cursor in bounds) marks it running and emits,
in order: one `verse-change` then one `character-change` for the unit at the
current cursor, then the notifications of one inline `update` tick at the
current playback time — a `time-update` followed by the advance notifications
for units whose time has already been reached (none when the playback time is
below the next unit's time). -/
theorem startSync_spec (s : EngineState) (t d : Int)
    (hidx : s.currentIndex < s.characters.length) :
    (s.isRunning = true → startSync t d s = (s, [])) ∧
    (s.isRunning = false →
      (startSync t d s).1.isRunning = true ∧
      (startSync t d s).2
        = Event.verseChange (s.characters.getD s.currentIndex default).verseIdx
              (s.characters.getD s.currentIndex default)
          :: Event.characterChange (s.characters.getD s.currentIndex default)
          :: Event.timeUpdate t d
          :: chainEvents (s.characters.getD s.currentIndex default)
              ((s.characters.drop (s.currentIndex + 1)).takeWhile (timeAtMost t))) := by
  constructor
  · intro hr
    simp [startSync, hr]
  · intro hr
    rw [startSync_eq_of_stopped t d s hr (by omega)]
    have hrun1 : ({ s with isRunning := true } : EngineState).isRunning = true := rfl
    constructor
    · rw [update_eq_of_running _ _ _ hrun1]
    · rw [update_eq_of_running _ _ _ hrun1]

/-- Witness for the amended C7 at `exRun` stopped (playback time `1`): the
running flag is set. -/
theorem startSync_spec_witness :
    exState.currentIndex < exState.characters.length ∧ exState.isRunning = false ∧
      (startSync 1 9 exState).1.isRunning = true :=
  ⟨by decide, rfl, ((startSync_spec exState 1 9 (by decide)).2 rfl).1⟩

/-! ### Claim theorems for the empty sequence (C8) -/

/-- A stopped engine over the empty sequence. -/
def emptyIdle : EngineState :=
  { characters := [], currentIndex := 0, isRunning := false }

/-- C8 counterexample: on an empty sequence the engine is NOT silent:
`startSync` (through its inline `update` call) emits a `time-update`
notification, and so does `update` on a running engine. -/
theorem empty_start_emits :
    (startSync 5 0 emptyIdle).2 ≠ [] ∧
    (startSync 5 0 emptyIdle).2 = [Event.timeUpdate 5 0] ∧
    (update 5 0 { emptyIdle with isRunning := true }).2 = [Event.timeUpdate 5 0] := by
  refine ⟨by decide, by decide, by decide⟩

/-- C8 amended: on an empty sequence no operation throws (all are total
functions here) and none emits any `verse-change` or `character-change`;
`seekTo` emits nothing at all and pins the cursor at `0`; `update` emits
nothing when stopped, and exactly one `time-update` when running;
`startSync` when stopped emits exactly one `time-update` (from its inline
`update` call), and nothing when already running. -/
theorem empty_sequence_degrades (s : EngineState) (t d : Int)
    (h : s.characters = []) :
    (seekTo t s).2 = [] ∧ (seekTo t s).1.currentIndex = 0 ∧
    (s.isRunning = false → update t d s = (s, [])) ∧
    (s.isRunning = true → (update t d s).1 = s ∧
      (update t d s).2 = [Event.timeUpdate t d]) ∧
    (s.isRunning = false → (startSync t d s).2 = [Event.timeUpdate t d]) ∧
    (s.isRunning = true → startSync t d s = (s, [])) ∧
    (update t d s).2.countP isCharacterChange = 0 ∧
    (update t d s).2.countP isVerseChange = 0 ∧
    (startSync t d s).2.countP isCharacterChange = 0 ∧
    (startSync t d s).2.countP isVerseChange = 0 := by
  have hseek : (seekTo t s).2 = [] ∧ (seekTo t s).1.currentIndex = 0 := by
    constructor <;> simp [seekTo, seekIndex, seekScan, h]
  have htw : (s.characters.drop (s.currentIndex + 1)).takeWhile (timeAtMost t) = [] := by
    simp [h]
  have hupr : s.isRunning = true → update t d s = (s, [Event.timeUpdate t d]) := by
    intro hr
    rw [update_eq_of_running t d s hr, htw]
    rfl
  have hsss : s.isRunning = false → (startSync t d s).2 = [Event.timeUpdate t d] := by
    intro hr
    have hlen : ¬ 0 < s.characters.length := by simp [h]
    have hrun1 : ({ s with isRunning := true } : EngineState).isRunning = true := rfl
    have hu1 : (update t d { s with isRunning := true }).2 = [Event.timeUpdate t d] := by
      rw [update_eq_of_running _ _ _ hrun1]
      simp [h, chainEvents]
    simp [startSync, hr, hlen, hu1]
  by_cases hr : s.isRunning = true
  · have hb : ¬ s.isRunning = false := by simp [hr]
    have hu := hupr hr
    have hst : startSync t d s = (s, []) := by simp [startSync, hr]
    exact ⟨hseek.1, hseek.2, fun hfalse => absurd hfalse hb, fun _ => ⟨by rw [hu], by rw [hu]⟩,
      fun hfalse => absurd hfalse hb, fun _ => hst,
      by rw [hu]; simp [isCharacterChange], by rw [hu]; simp [isVerseChange],
      by rw [hst]; simp, by rw [hst]; simp⟩
  · have hb : s.isRunning = false := by simpa using hr
    have hu := update_eq_of_stopped t d s hb
    have hs2 := hsss hb
    exact ⟨hseek.1, hseek.2, fun _ => hu, fun htrue => absurd htrue hr,
      fun _ => hs2, fun htrue => absurd htrue hr,
      by rw [hu]; simp, by rw [hu]; simp,
      by rw [hs2]; simp [isCharacterChange], by rw [hs2]; simp [isVerseChange]⟩

/-- Witness for the amended C8 at `emptyIdle` with `update(5)`-style inputs. -/
theorem empty_sequence_degrades_witness :
    emptyIdle.characters = [] ∧ (seekTo 3 emptyIdle).2 = [] :=
  ⟨rfl, (empty_sequence_degrades emptyIdle 3 0 rfl).1⟩

/-! ### Facts about the handler registry (JS `Set` semantics) -/

theorem setAdd_idem (l : List Nat) (x : Nat) : setAdd (setAdd l x) x = setAdd l x := by
  by_cases hx : x ∈ l
  · simp [setAdd, hx]
  · simp [setAdd, hx]

theorem setAdd_nodup {l : List Nat} {x : Nat} (hl : l.Nodup) : (setAdd l x).Nodup := by
  by_cases hx : x ∈ l
  · simpa [setAdd, hx] using hl
  · rw [setAdd, if_neg hx]
    exact hl.append (List.nodup_singleton x) (by simpa using hx)

theorem setAdd_count {l : List Nat} {x : Nat} (hl : l.Nodup) : (setAdd l x).count x = 1 := by
  by_cases hx : x ∈ l
  · rw [setAdd, if_pos hx]
    exact List.count_eq_one_of_mem hl hx
  · rw [setAdd, if_neg hx, List.count_append,
      List.count_eq_zero_of_not_mem hx]
    simp

theorem erase_setAdd_count {l : List Nat} {x : Nat} (hl : l.Nodup) :
    ((setAdd l x).erase x).count x = 0 := by
  rw [List.count_erase_self, setAdd_count hl]

/-! ### Claim theorems for the handler registry (C10) -/

/-- An empty handler registry. -/
def emptyHandlers : Handlers := { characterChange := [], verseChange := [], timeUpdate := [] }

/-- C10 counterexample: `on`, `off` and `emit` under an event name other than
the three known kinds are NOT always silent no-ops.  For names inherited from
`Object.prototype` the guard `if (this.handlers[event])` is truthy and the
subsequent `Set` method call throws a `TypeError`: concretely,
`on('constructor', ...)`, `off('toString', ...)` and `emit('__proto__')`
all throw. -/
theorem handlers_proto_names_throw :
    Handlers.on emptyHandlers "constructor" 7 = Except.error JsError.typeError ∧
    Handlers.off emptyHandlers "toString" 7 = Except.error JsError.typeError ∧
    Handlers.emit emptyHandlers "__proto__" = Except.error JsError.typeError :=
  ⟨rfl, rfl, rfl⟩

/-- C10 amended: registering the same callback twice for the same event kind
is idempotent (also through the error path, which is unchanged by a prior
registration); for each of the three known kinds a matching emit succeeds and
invokes the callback exactly once (not twice), and a single `off` removes it
completely; `on`, `off` and `emit` under an unknown event name are silent
no-ops only when the name is not inherited from `Object.prototype` (the
`handlers[event]` lookup is `undefined`); for prototype-inherited names all
three operations throw a `TypeError`. -/
theorem handler_set_semantics (h : Handlers) (e : String) (cb : Nat) (hwf : h.WF) :
    (Handlers.on h e cb).bind (fun h1 => Handlers.on h1 e cb) = Handlers.on h e cb ∧
    (knownEvent e = true →
      ∃ h1 l, Handlers.on h e cb = Except.ok h1 ∧ Handlers.emit h1 e = Except.ok l ∧
        l.count cb = 1 ∧
        ∃ h2 l2, Handlers.off h1 e cb = Except.ok h2 ∧
          Handlers.emit h2 e = Except.ok l2 ∧ l2.count cb = 0) ∧
    (knownEvent e = false → protoInherited e = false →
      Handlers.on h e cb = Except.ok h ∧ Handlers.off h e cb = Except.ok h ∧
      Handlers.emit h e = Except.ok []) ∧
    (protoInherited e = true →
      Handlers.on h e cb = Except.error JsError.typeError ∧
      Handlers.off h e cb = Except.error JsError.typeError ∧
      Handlers.emit h e = Except.error JsError.typeError) := by
  obtain ⟨h1, h2, h3⟩ := hwf
  by_cases e1 : e = "character-change"
  · subst e1
    refine ⟨?_, fun _ => ?_, fun hk _ => absurd hk (by decide),
      fun hp => absurd hp (by decide)⟩
    · show Handlers.on { h with characterChange := setAdd h.characterChange cb }
          "character-change" cb
        = Handlers.on h "character-change" cb
      simp [Handlers.on, setAdd_idem]
    · exact ⟨{ h with characterChange := setAdd h.characterChange cb },
        setAdd h.characterChange cb, rfl, rfl, setAdd_count h1,
        { h with characterChange := (setAdd h.characterChange cb).erase cb },
        (setAdd h.characterChange cb).erase cb, rfl, rfl, erase_setAdd_count h1⟩
  · by_cases e2 : e = "verse-change"
    · subst e2
      refine ⟨?_, fun _ => ?_, fun hk _ => absurd hk (by decide),
        fun hp => absurd hp (by decide)⟩
      · show Handlers.on { h with verseChange := setAdd h.verseChange cb }
            "verse-change" cb
          = Handlers.on h "verse-change" cb
        simp [Handlers.on, setAdd_idem]
      · exact ⟨{ h with verseChange := setAdd h.verseChange cb },
          setAdd h.verseChange cb, rfl, rfl, setAdd_count h2,
          { h with verseChange := (setAdd h.verseChange cb).erase cb },
          (setAdd h.verseChange cb).erase cb, rfl, rfl, erase_setAdd_count h2⟩
    · by_cases e3 : e = "time-update"
      · subst e3
        refine ⟨?_, fun _ => ?_, fun hk _ => absurd hk (by decide),
          fun hp => absurd hp (by decide)⟩
        · show Handlers.on { h with timeUpdate := setAdd h.timeUpdate cb }
              "time-update" cb
            = Handlers.on h "time-update" cb
          simp [Handlers.on, setAdd_idem]
        · exact ⟨{ h with timeUpdate := setAdd h.timeUpdate cb },
            setAdd h.timeUpdate cb, rfl, rfl, setAdd_count h3,
            { h with timeUpdate := (setAdd h.timeUpdate cb).erase cb },
            (setAdd h.timeUpdate cb).erase cb, rfl, rfl, erase_setAdd_count h3⟩
      · refine ⟨?_, ?_, ?_, ?_⟩
        · by_cases hp : protoInherited e = true <;>
            simp [Handlers.on, e1, e2, e3, hp, Except.bind]
        · intro hk
          simp [knownEvent, e1, e2, e3] at hk
        · intro _ hp
          refine ⟨?_, ?_, ?_⟩ <;> simp [Handlers.on, Handlers.off, Handlers.emit, e1, e2, e3, hp]
        · intro hp
          refine ⟨?_, ?_, ?_⟩ <;> simp [Handlers.on, Handlers.off, Handlers.emit, e1, e2, e3, hp]

/-- Witness for the amended C10 at the empty registry, event
`"character-change"`, callback id `7`: a matching emit after registration
invokes the callback exactly once. -/
theorem handler_set_semantics_witness :
    emptyHandlers.WF ∧ knownEvent "character-change" = true ∧
      ∃ h1 l, Handlers.on emptyHandlers "character-change" 7 = Except.ok h1 ∧
        Handlers.emit h1 "character-change" = Except.ok l ∧ l.count 7 = 1 ∧
        ∃ h2 l2, Handlers.off h1 "character-change" 7 = Except.ok h2 ∧
          Handlers.emit h2 "character-change" = Except.ok l2 ∧ l2.count 7 = 0 :=
  ⟨by decide, by decide,
    (handler_set_semantics emptyHandlers "character-change" 7 (by decide)).2.1 (by decide)⟩

end AudioSync
